import Mathlib

/-!
Verification of the 2D Ising-model simulator specification against the
repository's code.

The repository ships an example driver (`IsingModel/dynamic.py`), a timing
helper (`IsingModel/timer.py`) and a Monte-Carlo pi estimator
(`MonteCarlo/MonteCarlo.py`).  The Ising core itself (the `ising` module with
the lattice, the Metropolis engine, the observable collector and the
simulation driver) is imported by `dynamic.py` but is not part of the source
tree, so those components are modelled from the specification, as marked in
each doc comment.  Components present in the source tree are translated
directly from the Python code.

Numeric convention: Python floats are modelled by rationals (`ℚ`), except
that the exact Metropolis acceptance rule, which involves the transcendental
`exp`, is stated over the reals; the executable engine abstracts the numeric
exponential as a function parameter `expFn`.
-/

namespace Ising

/-- Modelled from the spec: the `Lattice` owns a 2D spin grid of shape
`height × width`; `spins r c` is the spin stored at row `r`, column `c`
(only indices `r < height`, `c < width` are meaningful). -/
structure Lattice where
  height : ℕ
  width : ℕ
  spins : ℕ → ℕ → ℤ

/-- Coordinates of the four neighbours of a site. -/
structure Nbrs where
  up : ℕ × ℕ
  down : ℕ × ℕ
  left : ℕ × ℕ
  right : ℕ × ℕ
  deriving DecidableEq

/-- Modelled from the spec: `neighbors(row, col)` returns the up, down, left
and right sites with indices wrapped modulo height/width (periodic boundary
conditions).  The decrement is written Python-style, as `(i - 1) % n` over
the integers (Python's `%` returns a non-negative representative). -/
def Lattice.neighbors (lat : Lattice) (r c : ℕ) : Nbrs :=
  { up := ((((r : ℤ) - 1) % (lat.height : ℤ)).toNat, c)
    down := ((r + 1) % lat.height, c)
    left := (r, (((c : ℤ) - 1) % (lat.width : ℤ)).toNat)
    right := (r, (c + 1) % lat.width) }

/-- Spin at a coordinate pair. -/
def Lattice.spinAt (lat : Lattice) (p : ℕ × ℕ) : ℤ :=
  lat.spins p.1 p.2

/-- Modelled from the spec: `flip(row, col)` negates the spin at that cell;
the only mutator. -/
def Lattice.flip (lat : Lattice) (r c : ℕ) : Lattice :=
  { lat with
    spins := fun r' c' => if r' = r ∧ c' = c then -lat.spins r' c' else lat.spins r' c' }

/-- Modelled from the spec: `localField(row, col)` is the sum of the four
neighbour spins. -/
def Lattice.localField (lat : Lattice) (r c : ℕ) : ℤ :=
  lat.spinAt (lat.neighbors r c).up + lat.spinAt (lat.neighbors r c).down +
    lat.spinAt (lat.neighbors r c).left + lat.spinAt (lat.neighbors r c).right

/-- Every cell of the lattice holds exactly `−1` or `+1`. -/
def SpinInv (lat : Lattice) : Prop :=
  ∀ r c : ℕ, lat.spins r c = 1 ∨ lat.spins r c = -1

end Ising

namespace Ising

/-- Modelled from the spec: the error taxonomy entry raised when a sweep is
invoked with temperature `T ≤ 0` (undefined Boltzmann factor). -/
inductive IsingError
  | scheduleDomainError
  deriving DecidableEq

/-- Modelled from the spec: the single run-scoped pseudo-random stream.  A
linear congruential generator stands in for the source's seeded RNG; the
claims below do not depend on the particular generator. -/
structure Rng where
  state : ℕ
  deriving DecidableEq

/-- One LCG step (glibc constants, modulus 2^31). -/
def lcgNext (x : ℕ) : ℕ := (1103515245 * x + 12345) % 2147483648

/-- Iterate the LCG `n` times from a seed. -/
def lcgIter : ℕ → ℕ → ℕ
  | 0, x => x
  | n + 1, x => lcgNext (lcgIter n x)

/-- Draw a uniform rational in `[0, 1)` and advance the stream. -/
def Rng.next (g : Rng) : ℚ × Rng :=
  let s := lcgNext g.state
  ((s : ℚ) / 2147483648, ⟨s⟩)

/-- Modelled from the spec: energy change if the spin were flipped,
`ΔE = 2 * s * (h + B)` (coupling constant normalized to 1); stated over any
commutative ring so it can be read at `ℚ` (executable engine) and `ℝ`
(exact acceptance rule). -/
def deltaE {α : Type*} [CommRing α] (s hloc B : α) : α := 2 * s * (hloc + B)

/-- Modelled from the spec: one Metropolis accept/reject trial at a site.
Accept unconditionally if `ΔE ≤ 0` (deterministic, no RNG draw); otherwise
draw `u` uniform in `[0, 1)` and accept exactly when `u < expFn (−ΔE / T)`.
`expFn` abstracts the numeric exponential of the source (a float); the exact
real exponential version of the rule is stated separately over `ℝ`. -/
def trial (expFn : ℚ → ℚ) (T B : ℚ) (st : Lattice × Rng) (p : ℕ × ℕ) : Lattice × Rng :=
  let lat := st.1
  let dE := deltaE (lat.spins p.1 p.2 : ℚ) ((lat.localField p.1 p.2 : ℤ) : ℚ) B
  if dE ≤ 0 then (lat.flip p.1 p.2, st.2)
  else
    let u := (st.2.next).1
    let g' := (st.2.next).2
    if u < expFn (-dE / T) then (lat.flip p.1 p.2, g') else (lat, g')

/-- Row-major list of the lattice's sites. -/
def sites (lat : Lattice) : List (ℕ × ℕ) :=
  (List.range lat.height).bind fun r => (List.range lat.width).map fun c => (r, c)

/-- Modelled from the spec: one Monte Carlo sweep — one trial per site,
visited in a fixed row-major order — at temperature `T` and field `B`.
`T ≤ 0` is a fatal precondition violation: the sweep fails fast with
`ScheduleDomainError` before touching the lattice. -/
def sweep (expFn : ℚ → ℚ) (T B : ℚ) (st : Lattice × Rng) : Except IsingError (Lattice × Rng) :=
  if T ≤ 0 then Except.error IsingError.scheduleDomainError
  else Except.ok ((sites st.1).foldl (trial expFn T B) st)

/-- The caller's state after a sweep that may raise: when the sweep raises,
the caller still holds the pre-call lattice and stream. -/
def sweepTry (expFn : ℚ → ℚ) (T B : ℚ) (st : Lattice × Rng) :
    (Lattice × Rng) × Option IsingError :=
  match sweep expFn T B st with
  | Except.error e => (st, some e)
  | Except.ok st' => (st', none)

/-- A convenient concrete lattice: every spin `+1`. -/
def allOnes (h w : ℕ) : Lattice := ⟨h, w, fun _ _ => 1⟩

end Ising

namespace Ising

/-- Modelled from the spec: the Metropolis acceptance criterion with the true
exponential, over the reals — accept unconditionally if `ΔE ≤ 0`; otherwise
accept exactly when the uniform draw `u` is below `exp (−ΔE / T)`. -/
def metropolisAccepts (dE T u : ℝ) : Prop :=
  dE ≤ 0 ∨ u < Real.exp (-dE / T)

/-- The energy change used by a trial at `(r, c)`, as a real:
`ΔE = 2 * s * (h + B)` with `s` the current spin and `h` the local field. -/
def trialDeltaE (lat : Lattice) (r c : ℕ) (B : ℝ) : ℝ :=
  deltaE ((lat.spins r c : ℤ) : ℝ) ((lat.localField r c : ℤ) : ℝ) B

/-- Modelled from the spec: the exact (real-valued) Metropolis trial at site
`(r, c)`, as a relation between the pre-lattice and the post-lattice: on
acceptance the spin is flipped, otherwise the lattice is unchanged. -/
def TrialStep (T B u : ℝ) (lat : Lattice) (r c : ℕ) (lat' : Lattice) : Prop :=
  (metropolisAccepts (trialDeltaE lat r c B) T u ∧ lat' = lat.flip r c) ∨
    (¬ metropolisAccepts (trialDeltaE lat r c B) T u ∧ lat' = lat)

end Ising

namespace Ising

/-- Modelled from the spec: the lattice is created once at simulation start
with each cell independently set to `+1` or `−1` uniformly at random from the
seeded stream (cell `(r, c)` consumes draw `r*w + c + 1` of the LCG stream). -/
def initLattice (h w seed : ℕ) : Lattice :=
  ⟨h, w, fun r c => if lcgIter (r * w + c + 1) seed % 2 = 0 then 1 else -1⟩

/-- Stream state after lattice initialization: the same run-scoped stream
continues into the sweeps (it is not re-seeded). -/
def initRng (h w seed : ℕ) : Rng := ⟨lcgIter (h * w) seed⟩

/-- Reachable engine states: the freshly initialized state, closed under
single spin flips and under successful Metropolis sweeps at any `(T, B)`. -/
inductive Reachable (h w seed : ℕ) : Lattice × Rng → Prop
  | init : Reachable h w seed (initLattice h w seed, initRng h w seed)
  | flipStep (st : Lattice × Rng) (r c : ℕ) :
      Reachable h w seed st → Reachable h w seed (st.1.flip r c, st.2)
  | sweepStep (expFn : ℚ → ℚ) (T B : ℚ) (st st' : Lattice × Rng) :
      Reachable h w seed st → sweep expFn T B st = Except.ok st' →
      Reachable h w seed st'

end Ising

namespace Ising

/-- Sum of all spins of the lattice. -/
def spinSum (lat : Lattice) : ℤ :=
  ∑ r ∈ Finset.range lat.height, ∑ c ∈ Finset.range lat.width, lat.spins r c

/-- Modelled from the spec: `magnetization = mean(spins)`, the mean spin
value over the lattice. -/
def magnetization (lat : Lattice) : ℚ :=
  (spinSum lat : ℚ) / ((lat.height : ℚ) * (lat.width : ℚ))

/-- Modelled from the spec: per-site energy,
`-(1/N) * Σ s_i * (right + down neighbour) - B * magnetization`
(forward neighbours only, to avoid double counting). -/
def latticeEnergy (lat : Lattice) (B : ℚ) : ℚ :=
  -(1 / ((lat.height : ℚ) * (lat.width : ℚ))) *
      (∑ r ∈ Finset.range lat.height, ∑ c ∈ Finset.range lat.width,
        (lat.spins r c : ℚ) *
          ((lat.spinAt (lat.neighbors r c).right : ℚ) +
            (lat.spinAt (lat.neighbors r c).down : ℚ))) -
    B * magnetization lat

/-- Modelled from the spec: one recorded observable sample. -/
structure ObservableSample where
  time : ℚ
  magnetization : ℚ
  energy : ℚ
  deriving DecidableEq

/-- Modelled from the spec: `ObservableCollector.sample` computes
`magnetization = mean(spins)` and the per-site energy evaluated at the field
value active at `time`. -/
def sample (fieldFn : ℚ → ℚ) (lat : Lattice) (t : ℚ) : ObservableSample :=
  ⟨t, magnetization lat, latticeEnergy lat (fieldFn t)⟩

end Ising

namespace Ising

/-- Modelled from the spec: the immutable `SimulationConfig` — lattice shape,
schedule functions, frame count, frame interval, sweeps-per-frame, RNG seed. -/
structure SimulationConfig where
  height : ℕ
  width : ℕ
  temp : ℚ → ℚ
  field : ℚ → ℚ
  frames : ℕ
  interval : ℚ
  sweepsPerFrame : ℕ
  seed : ℕ

/-- Row-major snapshot of the spin grid, as finite data. -/
def Lattice.snapshot (lat : Lattice) : List (List ℤ) :=
  (List.range lat.height).map fun r => (List.range lat.width).map fun c => lat.spins r c

/-- Run `n` sweeps at a fixed `(T, B)`, threading the single stream. -/
def sweepN (expFn : ℚ → ℚ) (T B : ℚ) : ℕ → Lattice × Rng → Except IsingError (Lattice × Rng)
  | 0, st => Except.ok st
  | n + 1, st => (sweep expFn T B st).bind (sweepN expFn T B n)

/-- Modelled from the spec: the per-frame transition of the driver — compute
`t = frame_index * interval`, evaluate `T = temperature(t)`, `B = field(t)`,
and run `sweeps_per_frame` Metropolis sweeps at `(T, B)`. -/
def frameAdvance (expFn : ℚ → ℚ) (cfg : SimulationConfig) (i : ℕ)
    (st : Lattice × Rng) : Except IsingError (Lattice × Rng) :=
  let t := (i : ℚ) * cfg.interval
  sweepN expFn (cfg.temp t) (cfg.field t) cfg.sweepsPerFrame st

/-- Engine state before frame `n`: the freshly initialized state advanced
through frames `0 .. n−1`.  The RNG stream is seeded exactly once, at
initialization, and threaded from each frame into the next. -/
def states (expFn : ℚ → ℚ) (cfg : SimulationConfig) : ℕ → Except IsingError (Lattice × Rng)
  | 0 => Except.ok (initLattice cfg.height cfg.width cfg.seed,
      initRng cfg.height cfg.width cfg.seed)
  | n + 1 => (states expFn cfg n).bind (frameAdvance expFn cfg n)

/-- Snapshot and observable sample emitted for frame `i`. -/
def frameOutput (expFn : ℚ → ℚ) (cfg : SimulationConfig) (i : ℕ) :
    Except IsingError (List (List ℤ) × ObservableSample) :=
  (states expFn cfg (i + 1)).map fun st =>
    (st.1.snapshot, sample cfg.field st.1 ((i : ℚ) * cfg.interval))

/-- Modelled from the spec: `run(config)` — the frame-indexed sequence of
lattice snapshots and observable samples, or the error of the failing frame. -/
def run (expFn : ℚ → ℚ) (cfg : SimulationConfig) :
    Except IsingError (List (List (List ℤ) × ObservableSample)) :=
  (List.range cfg.frames).mapM (frameOutput expFn cfg)

/-- A small concrete configuration used by witnesses. -/
def demoConfig : SimulationConfig :=
  ⟨2, 2, fun _ => 1, fun _ => 0, 1, 1, 1, 42⟩

end Ising

namespace Dynamic

/-- From the source (`IsingModel/dynamic.py`): the temperature schedule,
`temp = lambda t: 1.0 + 0.3 * t`. -/
def temp (t : ℚ) : ℚ := 1 + 3 / 10 * t

/-- From the source (`IsingModel/dynamic.py`): `frames = 100`. -/
def frames : ℕ := 100

/-- From the source (`IsingModel/dynamic.py`): the animation-save progress
callback is `lambda i, n: bar.update(i + 1)`; this is the value the lambda
hands to the progress bar's update for frame index `i` of `n`. -/
def progress_callback (i n : ℕ) : ℕ := i + 1

/-- The sequence of values passed to `bar.update` over a save of `n` frames
(matplotlib invokes the callback once per frame index `i ∈ [0, n)`). -/
def barUpdates (n : ℕ) : List ℕ :=
  (List.range n).map fun i => progress_callback i n

end Dynamic

namespace Timer

/-- Two-decimal rendering of a rational, for the source's `"{seconds:.2f}"`
format (nearest hundredth; the exact float tie behaviour is immaterial to
the claims settled here). -/
def formatTwoDec (q : ℚ) : String :=
  let n : ℤ := round (q * 100)
  toString (n / 100) ++ "." ++
    (if n % 100 < 10 then "0" ++ toString (n % 100) else toString (n % 100))

/-- The `"X minute(s) and Y second(s)"` text built by the `seconds >= 60`
branch of `to_string`. -/
def minuteSecondText (minutes secs : ℤ) : String :=
  toString minutes ++ " " ++ (if minutes = 1 then "minute" else "minutes") ++ " and " ++
    toString secs ++ " " ++ (if secs = 1 then "second" else "seconds")

/-- From the source (`IsingModel/timer.py`): `to_string(seconds)`.  For
`seconds >= 60` it returns `"X minute(s) and Y second(s)"` with
`X = int(seconds / 60)` and `Y = int(seconds % 60)`; for `seconds == 1` it
executes a bare `return`, i.e. returns `None`; otherwise it returns the
two-decimal rendering followed by the (here always plural) unit. -/
def to_string (seconds : ℚ) : Option String :=
  if 60 ≤ seconds then
    some (minuteSecondText (Int.floor (seconds / 60))
      (Int.floor (seconds - 60 * ((Int.floor (seconds / 60) : ℤ) : ℚ))))
  else if seconds = 1 then none
  else some (formatTwoDec seconds ++ " " ++ (if seconds = 1 then "second" else "seconds"))

end Timer

namespace MonteCarlo

/-- From the source (`MonteCarlo/MonteCarlo.py`): whether a dart at `(x, y)`
lands within the unit circle, `x ** 2 + y ** 2 <= 1`. -/
def inCircle (p : ℚ × ℚ) : Bool := decide (p.1 ^ 2 + p.2 ^ 2 ≤ 1)

/-- From the source (`MonteCarlo/MonteCarlo.py`): `monte_carlo(num_samples)`
counts the darts landing in the unit circle among `num_samples` uniform
draws (supplied by the stream `rng`) and returns
`4 * darts_in_circle / num_samples`; Python's true division raises
`ZeroDivisionError` when `num_samples == 0`. -/
def monte_carlo (rng : ℕ → ℚ × ℚ) (num_samples : ℕ) : Except String ℚ :=
  let darts_in_circle := ((List.range num_samples).filter fun i => inCircle (rng i)).length
  if num_samples = 0 then Except.error "ZeroDivisionError"
  else Except.ok (4 * (darts_in_circle : ℚ) / (num_samples : ℚ))

end MonteCarlo

/-! ### Supporting lemmas -/

namespace Ising

/-- Python's `(i - 1) % n` over the integers agrees with the natural-number
formula `(i + n - 1) % n` when `i < n`. -/
lemma decWrap_eq (n i : ℕ) (hn : 1 ≤ n) (hi : i < n) :
    (((i : ℤ) - 1) % (n : ℤ)).toNat = (i + n - 1) % n := by
  clear hi
  have h1 : ((i : ℤ) - 1) % (n : ℤ) = ((i : ℤ) - 1 + (n : ℤ) * 1) % (n : ℤ) := by
    rw [Int.add_mul_emod_self_left]
  have h2 : (i : ℤ) - 1 + (n : ℤ) * 1 = ((i + n - 1 : ℕ) : ℤ) := by
    push_cast [Nat.cast_sub (by omega : 1 ≤ i + n)]
    ring
  rw [h1, h2, ← Int.natCast_mod, Int.toNat_natCast]

lemma neighbors_up_eq (lat : Lattice) (r c : ℕ) (hh : 2 ≤ lat.height) (hr : r < lat.height) :
    (lat.neighbors r c).up = ((r + lat.height - 1) % lat.height, c) := by
  unfold Lattice.neighbors
  simp only
  rw [decWrap_eq lat.height r (by omega) hr]

lemma neighbors_left_eq (lat : Lattice) (r c : ℕ) (hw : 2 ≤ lat.width) (hc : c < lat.width) :
    (lat.neighbors r c).left = (r, (c + lat.width - 1) % lat.width) := by
  unfold Lattice.neighbors
  simp only
  rw [decWrap_eq lat.width c (by omega) hc]

end Ising

namespace Ising

lemma flip_ne_of_spin_ne_zero (lat : Lattice) (r c : ℕ) (hs : lat.spins r c ≠ 0) :
    lat.flip r c ≠ lat := by
  intro h
  have h2 := congrArg (fun l => Lattice.spins l r c) h
  simp [Lattice.flip] at h2
  omega


lemma spinInv_init (h w seed : ℕ) : SpinInv (initLattice h w seed) := by
  intro r c
  unfold initLattice
  by_cases hb : lcgIter (r * w + c + 1) seed % 2 = 0 <;> simp [hb]

lemma spinInv_flip (lat : Lattice) (r c : ℕ) (h : SpinInv lat) :
    SpinInv (lat.flip r c) := by
  intro r' c'
  unfold Lattice.flip
  simp only
  by_cases hc : r' = r ∧ c' = c
  · rw [if_pos hc]
    rcases h r' c' with h1 | h1 <;> rw [h1] <;> [right; left] <;> rfl
  · rw [if_neg hc]
    exact h r' c'

lemma spinInv_trial (expFn : ℚ → ℚ) (T B : ℚ) (st : Lattice × Rng) (p : ℕ × ℕ)
    (h : SpinInv st.1) : SpinInv (trial expFn T B st p).1 := by
  unfold trial
  dsimp only
  split_ifs with h1 h2
  · exact spinInv_flip _ _ _ h
  · exact spinInv_flip _ _ _ h
  · exact h

lemma spinInv_foldl (expFn : ℚ → ℚ) (T B : ℚ) (ps : List (ℕ × ℕ))
    (st : Lattice × Rng) (h : SpinInv st.1) :
    SpinInv ((ps.foldl (trial expFn T B) st).1) := by
  induction ps generalizing st with
  | nil => exact h
  | cons p ps ih => exact ih _ (spinInv_trial _ _ _ _ _ h)

lemma spinInv_sweep (expFn : ℚ → ℚ) (T B : ℚ) (st st' : Lattice × Rng)
    (h : SpinInv st.1) (hs : sweep expFn T B st = Except.ok st') : SpinInv st'.1 := by
  unfold sweep at hs
  split_ifs at hs with hT
  injection hs with h'
  exact h' ▸ spinInv_foldl expFn T B (sites st.1) st h


lemma abs_spinSum_le (lat : Lattice) (hinv : SpinInv lat) :
    |spinSum lat| ≤ (lat.height : ℤ) * (lat.width : ℤ) := by
  unfold spinSum
  calc |∑ r ∈ Finset.range lat.height, ∑ c ∈ Finset.range lat.width, lat.spins r c|
      ≤ ∑ r ∈ Finset.range lat.height, |∑ c ∈ Finset.range lat.width, lat.spins r c| :=
        Finset.abs_sum_le_sum_abs _ _
    _ ≤ ∑ _r ∈ Finset.range lat.height, (lat.width : ℤ) := by
        refine Finset.sum_le_sum fun r _ => ?_
        calc |∑ c ∈ Finset.range lat.width, lat.spins r c|
            ≤ ∑ c ∈ Finset.range lat.width, |lat.spins r c| := Finset.abs_sum_le_sum_abs _ _
          _ ≤ ∑ _c ∈ Finset.range lat.width, (1 : ℤ) := by
              refine Finset.sum_le_sum fun c _ => ?_
              rcases hinv r c with h1 | h1 <;> rw [h1] <;> decide
          _ = (lat.width : ℤ) := by simp
    _ = (lat.height : ℤ) * (lat.width : ℤ) := by simp [mul_comm]


end Ising

/-! ### Claims -/

/-- C1: For every Metropolis trial at a site (r,c) with current spin s, local
field h (sum of the four neighbor spins), external field B and temperature
T > 0, the energy change used is ΔE = 2 * s * (h + B), the flip is accepted
unconditionally whenever ΔE ≤ 0, and otherwise it is accepted exactly when a
uniform random draw in [0, 1) is below exp(−ΔE / T). -/
theorem C1_metropolis_rule (T B u : ℝ) (lat : Ising.Lattice) (r c : ℕ)
    (lat' : Ising.Lattice) (hT : 0 < T) (hs : lat.spins r c ≠ 0)
    (hstep : Ising.TrialStep T B u lat r c lat') :
    Ising.trialDeltaE lat r c B =
      2 * ((lat.spins r c : ℤ) : ℝ) * (((lat.localField r c : ℤ) : ℝ) + B) ∧
    (Ising.trialDeltaE lat r c B ≤ 0 → lat' = lat.flip r c) ∧
    (0 < Ising.trialDeltaE lat r c B →
      (lat' = lat.flip r c ↔ u < Real.exp (-Ising.trialDeltaE lat r c B / T))) := by
  refine ⟨rfl, ?_, ?_⟩
  · intro hdE
    rcases hstep with ⟨_, h⟩ | ⟨hrej, _⟩
    · exact h
    · exact absurd (Or.inl hdE) hrej
  · intro hdE
    constructor
    · intro hflip
      rcases hstep with ⟨hacc, _⟩ | ⟨_, heq⟩
      · rcases hacc with hle | hu
        · exact absurd hdE (not_lt.mpr hle)
        · exact hu
      · exact absurd (hflip.symm.trans heq)
          (Ising.flip_ne_of_spin_ne_zero lat r c hs)
    · intro hu
      rcases hstep with ⟨_, h⟩ | ⟨hrej, _⟩
      · exact h
      · exact absurd (Or.inr hu) hrej

/-- Witness for C1: a 2×2 all-ones lattice at (0,0) with B = −4, T = 1,
u = 0; there ΔE = 2·1·(4 − 4) = 0 ≤ 0 and the flip occurs. -/
theorem C1_metropolis_rule_witness :
    Ising.trialDeltaE (Ising.allOnes 2 2) 0 0 (-4) =
      2 * (((Ising.allOnes 2 2).spins 0 0 : ℤ) : ℝ) *
        ((((Ising.allOnes 2 2).localField 0 0 : ℤ) : ℝ) + (-4)) ∧
    (Ising.trialDeltaE (Ising.allOnes 2 2) 0 0 (-4) ≤ 0 →
      (Ising.allOnes 2 2).flip 0 0 = (Ising.allOnes 2 2).flip 0 0) ∧
    (0 < Ising.trialDeltaE (Ising.allOnes 2 2) 0 0 (-4) →
      ((Ising.allOnes 2 2).flip 0 0 = (Ising.allOnes 2 2).flip 0 0 ↔
        (0 : ℝ) < Real.exp (-Ising.trialDeltaE (Ising.allOnes 2 2) 0 0 (-4) / 1))) :=
  C1_metropolis_rule 1 (-4) 0 (Ising.allOnes 2 2) 0 0 ((Ising.allOnes 2 2).flip 0 0)
    one_pos (by decide)
    (Or.inl ⟨Or.inl (by
      show Ising.deltaE (((Ising.allOnes 2 2).spins 0 0 : ℤ) : ℝ) _ _ ≤ 0
      have hlf : (Ising.allOnes 2 2).localField 0 0 = 4 := by decide
      have hsp : (Ising.allOnes 2 2).spins 0 0 = 1 := rfl
      rw [hlf, hsp]
      norm_num [Ising.deltaE]), rfl⟩)

/-- C2: For every lattice and every temperature value T ≤ 0, invoking a
Metropolis sweep raises ScheduleDomainError (fails fast, never producing an
acceptance probability), and the lattice state after the raised error is
identical to the lattice state before the call. -/
theorem C2_nonpositive_temperature_fails_fast (expFn : ℚ → ℚ) (T B : ℚ)
    (st : Ising.Lattice × Ising.Rng) (hT : T ≤ 0) :
    Ising.sweep expFn T B st = Except.error Ising.IsingError.scheduleDomainError ∧
    Ising.sweepTry expFn T B st = (st, some Ising.IsingError.scheduleDomainError) := by
  have hs : Ising.sweep expFn T B st = Except.error Ising.IsingError.scheduleDomainError := by
    unfold Ising.sweep
    rw [if_pos hT]
  refine ⟨hs, ?_⟩
  unfold Ising.sweepTry
  rw [hs]

/-- Witness for C2 at T = 0 on a 2×2 all-ones lattice. -/
theorem C2_nonpositive_temperature_fails_fast_witness :
    Ising.sweep (fun _ => 0) 0 0 (Ising.allOnes 2 2, ⟨42⟩) =
      Except.error Ising.IsingError.scheduleDomainError ∧
    Ising.sweepTry (fun _ => 0) 0 0 (Ising.allOnes 2 2, ⟨42⟩) =
      ((Ising.allOnes 2 2, ⟨42⟩), some Ising.IsingError.scheduleDomainError) :=
  C2_nonpositive_temperature_fails_fast (fun _ => 0) 0 0 (Ising.allOnes 2 2, ⟨42⟩) le_rfl


/-- C4: For all lattice shapes with height, width ≥ 2, every cell of the
lattice holds exactly −1 or +1 immediately after initialization, and this
invariant is preserved by every operation (flip only negates a spin), so no
other value ever appears in any reachable lattice state. -/
theorem C4_spin_invariant (h w seed : ℕ) (st : Ising.Lattice × Ising.Rng)
    (hh : 2 ≤ h) (hw : 2 ≤ w) (hre : Ising.Reachable h w seed st) :
    Ising.SpinInv st.1 := by
  clear hh hw
  induction hre with
  | init => exact Ising.spinInv_init h w seed
  | flipStep st r c _ ih => exact Ising.spinInv_flip _ _ _ ih
  | sweepStep expFn T B st st' _ hs ih => exact Ising.spinInv_sweep _ _ _ _ _ ih hs

/-- Witness for C4: cell (0, 0) of the freshly initialized 2×2 lattice with
seed 42 holds +1 or −1. -/
theorem C4_spin_invariant_witness :
    (Ising.initLattice 2 2 42).spins 0 0 = 1 ∨ (Ising.initLattice 2 2 42).spins 0 0 = -1 :=
  C4_spin_invariant 2 2 42 (Ising.initLattice 2 2 42, Ising.initRng 2 2 42)
    (by decide) (by decide) Ising.Reachable.init 0 0


/-- C5: For every lattice with height, width ≥ 2 and every valid (row, col) —
including edge rows/columns and corners — `neighbors(row, col)` returns the
up, down, left and right sites with indices wrapped modulo height and width
(periodic/toroidal boundary conditions), so every site has exactly four
neighbours (the up/down rows and left/right columns below, all in range). -/
theorem C5_neighbors_wrap (lat : Ising.Lattice) (r c : ℕ)
    (hh : 2 ≤ lat.height) (hw : 2 ≤ lat.width) (hr : r < lat.height) (hc : c < lat.width) :
    (lat.neighbors r c).up = ((r + lat.height - 1) % lat.height, c) ∧
    (lat.neighbors r c).down = ((r + 1) % lat.height, c) ∧
    (lat.neighbors r c).left = (r, (c + lat.width - 1) % lat.width) ∧
    (lat.neighbors r c).right = (r, (c + 1) % lat.width) ∧
    (lat.neighbors r c).up.1 < lat.height ∧ (lat.neighbors r c).down.1 < lat.height ∧
    (lat.neighbors r c).left.2 < lat.width ∧ (lat.neighbors r c).right.2 < lat.width ∧
    (lat.neighbors r c).up.2 = c ∧ (lat.neighbors r c).down.2 = c ∧
    (lat.neighbors r c).left.1 = r ∧ (lat.neighbors r c).right.1 = r := by
  have hup := Ising.neighbors_up_eq lat r c hh hr
  have hleft := Ising.neighbors_left_eq lat r c hw hc
  have hhpos : 0 < lat.height := by omega
  have hwpos : 0 < lat.width := by omega
  refine ⟨hup, rfl, hleft, rfl, ?_, ?_, ?_, ?_, ?_, ?_, ?_, ?_⟩
  · rw [hup]; exact Nat.mod_lt _ hhpos
  · exact Nat.mod_lt _ hhpos
  · rw [hleft]; exact Nat.mod_lt _ hwpos
  · exact Nat.mod_lt _ hwpos
  · rw [hup]
  · rfl
  · rw [hleft]
  · rfl

/-- Witness for C5 at a 2×2 lattice, corner (0, 0): the wrapped neighbours are
up = (1,0), down = (1,0), left = (0,1), right = (0,1). -/
theorem C5_neighbors_wrap_witness :
    (Ising.Lattice.neighbors ⟨2, 2, fun _ _ => 1⟩ 0 0).up = ((0 + 2 - 1) % 2, 0) ∧
    (Ising.Lattice.neighbors ⟨2, 2, fun _ _ => 1⟩ 0 0).down = ((0 + 1) % 2, 0) ∧
    (Ising.Lattice.neighbors ⟨2, 2, fun _ _ => 1⟩ 0 0).left = (0, (0 + 2 - 1) % 2) ∧
    (Ising.Lattice.neighbors ⟨2, 2, fun _ _ => 1⟩ 0 0).right = (0, (0 + 1) % 2) ∧
    (Ising.Lattice.neighbors ⟨2, 2, fun _ _ => 1⟩ 0 0).up.1 < 2 ∧
    (Ising.Lattice.neighbors ⟨2, 2, fun _ _ => 1⟩ 0 0).down.1 < 2 ∧
    (Ising.Lattice.neighbors ⟨2, 2, fun _ _ => 1⟩ 0 0).left.2 < 2 ∧
    (Ising.Lattice.neighbors ⟨2, 2, fun _ _ => 1⟩ 0 0).right.2 < 2 ∧
    (Ising.Lattice.neighbors ⟨2, 2, fun _ _ => 1⟩ 0 0).up.2 = 0 ∧
    (Ising.Lattice.neighbors ⟨2, 2, fun _ _ => 1⟩ 0 0).down.2 = 0 ∧
    (Ising.Lattice.neighbors ⟨2, 2, fun _ _ => 1⟩ 0 0).left.1 = 0 ∧
    (Ising.Lattice.neighbors ⟨2, 2, fun _ _ => 1⟩ 0 0).right.1 = 0 :=
  C5_neighbors_wrap ⟨2, 2, fun _ _ => 1⟩ 0 0 (by decide) (by decide) (by decide) (by decide)


/-- C6: For every lattice whose cells are in {−1, +1}, the magnetization
computed by ObservableCollector.sample equals mean(spins) (the spin sum over
the site count) and lies in [−1, 1]; for a lattice with every cell equal to
+1 the magnetization equals 1 exactly. -/
theorem C6_magnetization_bounds (fieldFn : ℚ → ℚ) (lat : Ising.Lattice) (t : ℚ)
    (hh : 1 ≤ lat.height) (hw : 1 ≤ lat.width) (hinv : Ising.SpinInv lat) :
    (Ising.sample fieldFn lat t).magnetization =
      (Ising.spinSum lat : ℚ) / ((lat.height : ℚ) * (lat.width : ℚ)) ∧
    -1 ≤ (Ising.sample fieldFn lat t).magnetization ∧
    (Ising.sample fieldFn lat t).magnetization ≤ 1 ∧
    ((∀ r c : ℕ, lat.spins r c = 1) → (Ising.sample fieldFn lat t).magnetization = 1) := by
  have hN : (0 : ℚ) < (lat.height : ℚ) * (lat.width : ℚ) := by
    have h1 : (0 : ℚ) < (lat.height : ℚ) := by exact_mod_cast Nat.lt_of_lt_of_le Nat.zero_lt_one hh
    have h2 : (0 : ℚ) < (lat.width : ℚ) := by exact_mod_cast Nat.lt_of_lt_of_le Nat.zero_lt_one hw
    exact mul_pos h1 h2
  have hmag : (Ising.sample fieldFn lat t).magnetization = Ising.magnetization lat := rfl
  have habs : |Ising.magnetization lat| ≤ 1 := by
    unfold Ising.magnetization
    rw [abs_div, abs_of_pos hN]
    rw [div_le_one hN]
    have := Ising.abs_spinSum_le lat hinv
    calc |(Ising.spinSum lat : ℚ)| = (|Ising.spinSum lat| : ℤ) := by
          rw [Int.cast_abs]
      _ ≤ (((lat.height : ℤ) * (lat.width : ℤ) : ℤ) : ℚ) := by exact_mod_cast this
      _ = (lat.height : ℚ) * (lat.width : ℚ) := by push_cast; ring
  have hpair := abs_le.mp habs
  refine ⟨hmag, by rw [hmag]; exact hpair.1, by rw [hmag]; exact hpair.2, ?_⟩
  intro hall
  rw [hmag]
  unfold Ising.magnetization Ising.spinSum
  have hsum : (∑ r ∈ Finset.range lat.height, ∑ c ∈ Finset.range lat.width, lat.spins r c)
      = (lat.height : ℤ) * (lat.width : ℤ) := by
    have : ∀ r ∈ Finset.range lat.height,
        (∑ c ∈ Finset.range lat.width, lat.spins r c) = (lat.width : ℤ) := by
      intro r _
      rw [Finset.sum_congr rfl fun c _ => hall r c]
      simp
    rw [Finset.sum_congr rfl this]
    simp [mul_comm]
  rw [hsum]
  rw [div_eq_one_iff_eq (ne_of_gt hN)]
  push_cast
  ring

/-- Witness for C6 on a 2×2 all-ones lattice with zero field at time 0. -/
theorem C6_magnetization_bounds_witness :
    (Ising.sample (fun _ => 0) (Ising.allOnes 2 2) 0).magnetization =
      (Ising.spinSum (Ising.allOnes 2 2) : ℚ) /
        (((Ising.allOnes 2 2).height : ℚ) * ((Ising.allOnes 2 2).width : ℚ)) ∧
    -1 ≤ (Ising.sample (fun _ => 0) (Ising.allOnes 2 2) 0).magnetization ∧
    (Ising.sample (fun _ => 0) (Ising.allOnes 2 2) 0).magnetization ≤ 1 ∧
    ((∀ r c : ℕ, (Ising.allOnes 2 2).spins r c = 1) →
      (Ising.sample (fun _ => 0) (Ising.allOnes 2 2) 0).magnetization = 1) :=
  C6_magnetization_bounds (fun _ => 0) (Ising.allOnes 2 2) 0 (by decide) (by decide)
    (fun _ _ => Or.inl rfl)

/-- C3: For every SimulationConfig (including the RNG seed), two runs of
run(config) with identical configs produce bit-identical lattice snapshots
and bit-identical observable series at every frame; all randomness comes from
a single run-scoped RNG stream, seeded once at initialization and threaded
from each frame into the next (never re-seeded per sweep or per frame). -/
theorem C3_reproducibility (expFn : ℚ → ℚ) (cfg₁ cfg₂ : Ising.SimulationConfig)
    (hcfg : cfg₁ = cfg₂) :
    Ising.run expFn cfg₁ = Ising.run expFn cfg₂ ∧
    (∀ i : ℕ, Ising.frameOutput expFn cfg₁ i = Ising.frameOutput expFn cfg₂ i) ∧
    (∀ n : ℕ, Ising.states expFn cfg₁ (n + 1) =
      (Ising.states expFn cfg₁ n).bind (Ising.frameAdvance expFn cfg₁ n)) := by
  subst hcfg
  exact ⟨rfl, fun _ => rfl, fun _ => rfl⟩

/-- Witness for C3 at a concrete 2×2, 1-frame configuration. -/
theorem C3_reproducibility_witness :
    Ising.run (fun _ => 0) Ising.demoConfig = Ising.run (fun _ => 0) Ising.demoConfig ∧
    (∀ i : ℕ, Ising.frameOutput (fun _ => 0) Ising.demoConfig i =
      Ising.frameOutput (fun _ => 0) Ising.demoConfig i) ∧
    (∀ n : ℕ, Ising.states (fun _ => 0) Ising.demoConfig (n + 1) =
      (Ising.states (fun _ => 0) Ising.demoConfig n).bind
        (Ising.frameAdvance (fun _ => 0) Ising.demoConfig n)) :=
  C3_reproducibility (fun _ => 0) Ising.demoConfig Ising.demoConfig rfl

/-- C7 counterexample: at frame index 0 (of the 100 frames configured in
dynamic.py) the value handed to the progress bar's update is 1, not 0 — the
callback is `lambda i, n: bar.update(i + 1)`. -/
theorem C7_counterexample :
    Dynamic.progress_callback 0 Dynamic.frames = 1 ∧
    Dynamic.progress_callback 0 Dynamic.frames ≠ 0 ∧
    (Dynamic.barUpdates Dynamic.frames).get? 0 = some 1 :=
  ⟨rfl, by decide, by decide⟩

/-- C7 (amended): after each frame the driver reports progress to the
external progress bar, and for every frame i in [0, frames) the value passed
to the bar's update equals i + 1 (the source callback deliberately adjusts
the zero-based frame index by one). -/
theorem C7_progress_value (n i : ℕ) (h : i < n) :
    (Dynamic.barUpdates n).get? i = some (i + 1) := by
  unfold Dynamic.barUpdates
  rw [List.get?_map, List.get?_range h]
  rfl

/-- Witness for C7 (amended) at frame 0 of the configured 100 frames. -/
theorem C7_progress_value_witness :
    (Dynamic.barUpdates Dynamic.frames).get? 0 = some (0 + 1) :=
  C7_progress_value Dynamic.frames 0 (by decide)

/-- C8: For the temperature schedule configured in dynamic.py,
temperature(t) = 1.0 + 0.3 * t, the returned value is strictly positive for
every simulated time t ≥ 0, so the engine's mandated rejection of T ≤ 0 is
unreachable throughout that run. -/
theorem C8_schedule_positive (t : ℚ) (ht : 0 ≤ t) :
    0 < Dynamic.temp t ∧
    ∀ (expFn : ℚ → ℚ) (B : ℚ) (st : Ising.Lattice × Ising.Rng),
      Ising.sweep expFn (Dynamic.temp t) B st ≠
        Except.error Ising.IsingError.scheduleDomainError := by
  have hpos : 0 < Dynamic.temp t := by
    unfold Dynamic.temp
    have h1 : 0 ≤ 3 / 10 * t := mul_nonneg (by norm_num) ht
    linarith
  refine ⟨hpos, fun expFn B st => ?_⟩
  unfold Ising.sweep
  rw [if_neg (not_le.mpr hpos)]
  exact fun h => Except.noConfusion h

/-- Witness for C8 at t = 0 on a 2×2 all-ones lattice. -/
theorem C8_schedule_positive_witness :
    0 < Dynamic.temp 0 ∧
    Ising.sweep (fun _ => 0) (Dynamic.temp 0) 0 (Ising.allOnes 2 2, ⟨42⟩) ≠
      Except.error Ising.IsingError.scheduleDomainError :=
  ⟨(C8_schedule_positive 0 le_rfl).1,
    (C8_schedule_positive 0 le_rfl).2 (fun _ => 0) 0 (Ising.allOnes 2 2, ⟨42⟩)⟩

/-- C9 counterexample: at seconds = 61 the code returns
"1 minute and 1 second" (singular), not the "... and 1 seconds" text the
claim's "X minute(s) and Y seconds" shape asserts. -/
theorem C9_counterexample :
    Timer.to_string 61 = some "1 minute and 1 second" ∧
    Timer.to_string 61 ≠ some "1 minute and 1 seconds" := by
  have h : Timer.to_string 61 = some "1 minute and 1 second" := by
    unfold Timer.to_string
    rw [if_pos (by norm_num : (60 : ℚ) ≤ 61)]
    have hm : Int.floor ((61 : ℚ) / 60) = 1 := by
      rw [Int.floor_eq_iff] <;> norm_num
    rw [hm]
    norm_num
    decide
  refine ⟨h, ?_⟩
  rw [h]
  decide

/-- C9 (amended): to_string returns a string for every non-negative input
except exactly seconds == 1, where it returns None; for seconds ≥ 60 it
returns "X minute(s) and Y second(s)" (each unit singular exactly when its
count is 1) with X = int(seconds / 60) and Y = int(seconds % 60); for every
other seconds < 60 it returns the value formatted to two decimals followed
by "seconds". -/
theorem C9_to_string_shape (s : ℚ) (hs : 0 ≤ s) :
    (Timer.to_string s = none ↔ s = 1) ∧
    (60 ≤ s → Timer.to_string s = some (Timer.minuteSecondText (Int.floor (s / 60))
      (Int.floor (s - 60 * ((Int.floor (s / 60) : ℤ) : ℚ))))) ∧
    (s < 60 → s ≠ 1 → Timer.to_string s =
      some (Timer.formatTwoDec s ++ " " ++ "seconds")) := by
  clear hs
  refine ⟨?_, ?_, ?_⟩
  · unfold Timer.to_string
    split_ifs with h1 h2
    · exact iff_of_false (by simp) (by intro h; rw [h] at h1; norm_num at h1)
    · exact iff_of_true rfl h2
    · exact iff_of_false (by simp) h2
  · intro h60
    unfold Timer.to_string
    rw [if_pos h60]
  · intro h60 hne
    unfold Timer.to_string
    rw [if_neg (not_le.mpr h60), if_neg hne, if_neg hne]

/-- Witness for C9 (amended) at seconds = 61. -/
theorem C9_to_string_shape_witness :
    Timer.to_string 61 = some (Timer.minuteSecondText (Int.floor ((61 : ℚ) / 60))
      (Int.floor ((61 : ℚ) - 60 * ((Int.floor ((61 : ℚ) / 60) : ℤ) : ℚ)))) :=
  (C9_to_string_shape 61 (by norm_num)).2.1 (by norm_num)

/-- C10: For every num_samples ≥ 1, monte_carlo(num_samples) returns
4 * k / num_samples for some integer k with 0 ≤ k ≤ num_samples, hence the
pi estimate always lies in [0, 4]; for num_samples = 0 the division is
unguarded and the call raises ZeroDivisionError. -/
theorem C10_monte_carlo_estimate (rng : ℕ → ℚ × ℚ) (n : ℕ) :
    (n = 0 → MonteCarlo.monte_carlo rng n = Except.error "ZeroDivisionError") ∧
    (1 ≤ n → ∃ k : ℕ, k ≤ n ∧
      MonteCarlo.monte_carlo rng n = Except.ok (4 * (k : ℚ) / (n : ℚ)) ∧
      0 ≤ 4 * (k : ℚ) / (n : ℚ) ∧ 4 * (k : ℚ) / (n : ℚ) ≤ 4) := by
  constructor
  · intro h0
    subst h0
    rfl
  · intro hn
    refine ⟨((List.range n).filter fun i => MonteCarlo.inCircle (rng i)).length, ?_, ?_, ?_, ?_⟩
    · calc ((List.range n).filter fun i => MonteCarlo.inCircle (rng i)).length
          ≤ (List.range n).length := List.length_filter_le _ _
        _ = n := List.length_range n
    · unfold MonteCarlo.monte_carlo
      rw [if_neg (by omega : ¬ n = 0)]
    · positivity
    · have hk : (((List.range n).filter fun i => MonteCarlo.inCircle (rng i)).length : ℚ) ≤ n := by
        exact_mod_cast le_trans (List.length_filter_le _ _) (le_of_eq (List.length_range n))
      have hnpos : (0 : ℚ) < n := by exact_mod_cast hn
      rw [div_le_iff hnpos]
      linarith

/-- Witness for C10: with a constant stream landing at (1/2, 1/2),
num_samples = 0 raises and num_samples = 1 yields an estimate in [0, 4]. -/
theorem C10_monte_carlo_estimate_witness :
    MonteCarlo.monte_carlo (fun _ => (1/2, 1/2)) 0 = Except.error "ZeroDivisionError" ∧
    ∃ k : ℕ, k ≤ 1 ∧
      MonteCarlo.monte_carlo (fun _ => (1/2, 1/2)) 1 = Except.ok (4 * (k : ℚ) / (1 : ℚ)) ∧
      0 ≤ 4 * (k : ℚ) / (1 : ℚ) ∧ 4 * (k : ℚ) / (1 : ℚ) ≤ 4 :=
  ⟨(C10_monte_carlo_estimate (fun _ => (1/2, 1/2)) 0).1 rfl,
    (C10_monte_carlo_estimate (fun _ => (1/2, 1/2)) 1).2 le_rfl⟩

